import Mathlib

/-!
Shallow embedding of the mempool-tracker core (database.rs, utils.rs, worker.rs,
migrations/mod.rs) and proofs about the frozen claims.

Bytes are modelled as natural numbers (each byte in 0..255), byte strings as
lists of naturals.  Machine integers are naturals with explicit reductions
modulo powers of two where the source wraps or truncates.  SHA-256 is
implemented in full so that inputs-hashes and txids are the real digests the
source computes, and everything stays executable.
-/

namespace MempoolTracker

set_option maxRecDepth 100000

abbrev Bytes := List Nat

/-- Truncate to 32 bits, as Rust u32 arithmetic does inside SHA-256. -/
def m32 (x : Nat) : Nat := x % 4294967296

/-- Rotate a 32-bit word right by n bits. -/
def rotr32 (n x : Nat) : Nat := m32 (x / 2 ^ n + x * 2 ^ (32 - n))

/-- Shift a 32-bit word right by n bits. -/
def shr32 (n x : Nat) : Nat := x / 2 ^ n

/-- SHA-256 round constants, FIPS 180-4 section 4.2.2. -/
def shaK : List Nat :=
  [1116352408, 1899447441, 3049323471, 3921009573, 961987163, 1508970993,
   2453635748, 2870763221, 3624381080, 310598401, 607225278, 1426881987,
   1925078388, 2162078206, 2614888103, 3248222580, 3835390401, 4022224774,
   264347078, 604807628, 770255983, 1249150122, 1555081692, 1996064986,
   2554220882, 2821834349, 2952996808, 3210313671, 3336571891, 3584528711,
   113926993, 338241895, 666307205, 773529912, 1294757372, 1396182291,
   1695183700, 1986661051, 2177026350, 2456956037, 2730485921, 2820302411,
   3259730800, 3345764771, 3516065817, 3600352804, 4094571909, 275423344,
   430227734, 506948616, 659060556, 883997877, 958139571, 1322822218,
   1537002063, 1747873779, 1955562222, 2024104815, 2227730452, 2361852424,
   2428436474, 2756734187, 3204031479, 3329325298]

/-- Initial SHA-256 hash state, FIPS 180-4 section 5.3.3. -/
def shaH0 : List Nat :=
  [1779033703, 3144134277, 1013904242, 2773480762,
   1359893119, 2600822924, 528734635, 1541459225]

def ch32 (x y z : Nat) : Nat := Nat.xor (Nat.land x y) (Nat.land (4294967295 - m32 x) z)

def maj32 (x y z : Nat) : Nat := Nat.xor (Nat.xor (Nat.land x y) (Nat.land x z)) (Nat.land y z)

def bigSigma0 (x : Nat) : Nat := Nat.xor (Nat.xor (rotr32 2 x) (rotr32 13 x)) (rotr32 22 x)

def bigSigma1 (x : Nat) : Nat := Nat.xor (Nat.xor (rotr32 6 x) (rotr32 11 x)) (rotr32 25 x)

def smallSigma0 (x : Nat) : Nat := Nat.xor (Nat.xor (rotr32 7 x) (rotr32 18 x)) (shr32 3 x)

def smallSigma1 (x : Nat) : Nat := Nat.xor (Nat.xor (rotr32 17 x) (rotr32 19 x)) (shr32 10 x)

/-- Big-endian bytes of a value, fixed width. -/
def beBytes : Nat → Nat → Bytes
  | 0, _ => []
  | w + 1, n => beBytes w (n / 256) ++ [n % 256]

/-- Little-endian bytes of a value, fixed width (Bitcoin consensus integers). -/
def leBytes : Nat → Nat → Bytes
  | 0, _ => []
  | w + 1, n => n % 256 :: leBytes w (n / 256)

/-- SHA-256 message padding: append 0x80, zeros, and the 64-bit bit length. -/
def shaPad (msg : Bytes) : Bytes :=
  let padZeros := (119 - msg.length % 64) % 64
  msg ++ 0x80 :: List.replicate padZeros 0 ++ beBytes 8 (msg.length * 8)

/-- Split a byte string into 32-bit big-endian words. -/
def bytesToWords : Bytes → List Nat
  | a :: b :: c :: d :: rest => (((a * 256 + b) * 256 + c) * 256 + d) :: bytesToWords rest
  | _ => []

/-- Extend a 16-word block to the 64-word message schedule. -/
def shaExtend : Nat → List Nat → List Nat
  | 0, w => w
  | n + 1, w =>
    let t := m32 (smallSigma1 (w.getD (w.length - 2) 0) + w.getD (w.length - 7) 0 +
                  smallSigma0 (w.getD (w.length - 15) 0) + w.getD (w.length - 16) 0)
    shaExtend n (w ++ [t])

/-- One round of the SHA-256 compression function. -/
def shaRound (st : List Nat) (kw : Nat × Nat) : List Nat :=
  match st with
  | [a, b, c, d, e, f, g, h] =>
    let t1 := m32 (h + bigSigma1 e + ch32 e f g + kw.1 + kw.2)
    let t2 := m32 (bigSigma0 a + maj32 a b c)
    [m32 (t1 + t2), a, b, c, m32 (d + t1), e, f, g]
  | other => other

/-- Compress one 64-byte block into the running hash state. -/
def shaBlock (h : List Nat) (block : Bytes) : List Nat :=
  let w := shaExtend 48 (bytesToWords block)
  let st := (List.zip shaK w).foldl shaRound h
  (List.zip h st).map (fun p => m32 (p.1 + p.2))

/-- Fold the compression function over consecutive 64-byte blocks. -/
def shaBlocks (h : List Nat) : Bytes → List Nat
  | [] => h
  | msg => shaBlocksAux h msg (msg.length / 64)
where
  shaBlocksAux (h : List Nat) (msg : Bytes) : Nat → List Nat
    | 0 => h
    | n + 1 => shaBlocksAux (shaBlock h (msg.take 64)) (msg.drop 64) n

/-- SHA-256 of a byte string, as 32 digest bytes. -/
def sha256 (msg : Bytes) : Bytes :=
  ((shaBlocks shaH0 (shaPad msg)).map (beBytes 4)).flatten

/-! Bitcoin transaction data model (rust-bitcoin types as used by the source). -/

structure OutPoint where
  txid : Bytes
  vout : Nat
deriving DecidableEq, Repr

/-- Null outpoint: all-zero txid, vout u32::MAX (the coinbase marker). -/
def OutPoint.null : OutPoint := { txid := List.replicate 32 0, vout := 4294967295 }

def OutPoint.is_null (o : OutPoint) : Bool := o = OutPoint.null

structure TxIn where
  previous_output : OutPoint
  script_sig : Bytes
  sequence : Nat
  witness : List Bytes
deriving DecidableEq, Repr

structure TxOut where
  value : Nat
  script_pubkey : Bytes
deriving DecidableEq, Repr

structure Transaction where
  version : Nat
  lock_time : Nat
  input : List TxIn
  output : List TxOut
deriving DecidableEq, Repr

/-- A transaction is coinbase when it has exactly one input spending the null outpoint. -/
def Transaction.is_coinbase (tx : Transaction) : Bool :=
  match tx.input with
  | [i] => i.previous_output.is_null
  | _ => false

/-! Consensus encoding (sizes and bytes are exact, matching rust-bitcoin). -/

/-- Bitcoin compact-size encoding of a length or count. -/
def compactSize (n : Nat) : Bytes :=
  if n < 0xfd then [n]
  else if n ≤ 0xffff then 0xfd :: leBytes 2 n
  else if n ≤ 0xffffffff then 0xfe :: leBytes 4 n
  else 0xff :: leBytes 8 n

def encodeOutPoint (o : OutPoint) : Bytes := o.txid ++ leBytes 4 o.vout

def encodeScript (s : Bytes) : Bytes := compactSize s.length ++ s

/-- Consensus encoding of a TxIn: outpoint, script_sig, sequence.  The witness
is serialized separately in the transaction body and is not part of this. -/
def encodeTxIn (i : TxIn) : Bytes :=
  encodeOutPoint i.previous_output ++ encodeScript i.script_sig ++ leBytes 4 i.sequence

def encodeTxOut (o : TxOut) : Bytes := leBytes 8 o.value ++ encodeScript o.script_pubkey

def encodeWitness (w : List Bytes) : Bytes :=
  compactSize w.length ++ (w.map (fun el => compactSize el.length ++ el)).flatten

/-- Transaction serialization without witness data (the txid preimage and the
base-size serialization). -/
def encodeTxNoWitness (tx : Transaction) : Bytes :=
  leBytes 4 tx.version ++
  compactSize tx.input.length ++ (tx.input.map encodeTxIn).flatten ++
  compactSize tx.output.length ++ (tx.output.map encodeTxOut).flatten ++
  leBytes 4 tx.lock_time

def Transaction.hasWitness (tx : Transaction) : Bool :=
  tx.input.any (fun i => !i.witness.isEmpty)

/-- Full transaction serialization: segwit framing (marker 0x00, flag 0x01 and
per-input witnesses) exactly when some input has a non-empty witness. -/
def encodeTx (tx : Transaction) : Bytes :=
  if tx.hasWitness then
    leBytes 4 tx.version ++ [0x00, 0x01] ++
    compactSize tx.input.length ++ (tx.input.map encodeTxIn).flatten ++
    compactSize tx.output.length ++ (tx.output.map encodeTxOut).flatten ++
    (tx.input.map (fun i => encodeWitness i.witness)).flatten ++
    leBytes 4 tx.lock_time
  else encodeTxNoWitness tx

/-- Txid: double SHA-256 of the witness-stripped serialization
(Transaction::compute_txid). -/
def compute_txid (tx : Transaction) : Bytes := sha256 (sha256 (encodeTxNoWitness tx))

/-- Inputs hash (utils.rs get_inputs_hash): one SHA-256 over the concatenated
consensus encodings of the inputs, in order.  The database stores it
hex-encoded; hex encoding is injective so the digest bytes model the key. -/
def get_inputs_hash (inputs : List TxIn) : Bytes :=
  sha256 (inputs.map encodeTxIn).flatten

/-- Modelled from the spec: the function `prune_large_witnesses` is imported by
database.rs from utils.rs but its definition is not present under src/.
Spec, section 4.1: "Witness pruning.  For each input, clear the witness stack.
Scripts in script_sig are retained." -/
def prune_large_witnesses (tx : Transaction) : Transaction :=
  { tx with input := tx.input.map (fun i => { i with witness := [] }) }

/-! Weight, vbytes and fee rate (rust-bitcoin Weight and FeeRate as used by
utils.rs compute_fee_rate). -/

/-- Transaction weight in weight units: three times the base size plus the
total size (Transaction::weight). -/
def Transaction.weight (tx : Transaction) : Nat :=
  3 * (encodeTxNoWitness tx).length + (encodeTx tx).length

/-- Weight::to_vbytes_ceil: ceiling of weight over four. -/
def toVbytesCeil (wu : Nat) : Nat := (wu + 3) / 4

def U64MAX : Nat := 18446744073709551615

/-- FeeRate is stored as satoshis per 1000 weight units (rust-bitcoin). -/
structure FeeRate where
  sat_per_kwu : Nat
deriving DecidableEq, Repr

/-- FeeRate::from_sat_per_vb: multiply by 250 with checked u64 multiplication;
None on overflow. -/
def FeeRate.from_sat_per_vb (v : Nat) : Option FeeRate :=
  if v * 250 ≤ U64MAX then some ⟨v * 250⟩ else none

def FeeRate.zero : FeeRate := ⟨0⟩

/-- FeeRate::to_sat_per_vb_ceil: ceiling conversion back to sat/vB. -/
def FeeRate.to_sat_per_vb_ceil (r : FeeRate) : Nat := (r.sat_per_kwu + 249) / 250

/-- utils.rs compute_fee_rate: zero for coinbase; otherwise the integer
quotient of the fee in satoshis by the ceiling vbytes, lifted into a FeeRate;
a None from the FeeRate constructor is turned into an error. -/
def compute_fee_rate (tx : Transaction) (absolute_fee : Nat) : Except String FeeRate :=
  if tx.is_coinbase then .ok FeeRate.zero
  else
    match FeeRate.from_sat_per_vb (absolute_fee / toVbytesCeil tx.weight) with
    | some r => .ok r
    | none => .error "Fee rate is 0"

/-! Schema and migrations (database.rs Database::new DDL and migrations/mod.rs).
Tables are modelled by their column-name lists; ALTER TABLE statements fail the
way SQLite fails them (missing source column, duplicate column). -/

inductive SqlError
  | noSuchColumn
  | duplicateColumn
  | duplicateKey
deriving DecidableEq, Repr

structure Schema where
  transactions : List String
  rbf : List String
deriving DecidableEq, Repr

structure MigState where
  schema : Schema
  ledger : List (String × Nat)
deriving DecidableEq, Repr

def renameColumn (cols : List String) (oldName newName : String) :
    Except SqlError (List String) :=
  if !cols.contains oldName then .error .noSuchColumn
  else if cols.contains newName then .error .duplicateColumn
  else .ok (cols.map (fun c => if c = oldName then newName else c))

def addColumn (cols : List String) (c : String) : Except SqlError (List String) :=
  if cols.contains c then .error .duplicateColumn else .ok (cols ++ [c])

/-- INSERT INTO migrations (id, applied_at): plain insert on a primary key. -/
def ledgerInsert (st : MigState) (id : String) (now : Nat) : Except SqlError MigState :=
  if (st.ledger.map Prod.fst).contains id then .error .duplicateKey
  else .ok { st with ledger := st.ledger ++ [(id, now)] }

structure Migration where
  id : String
  migrate : Nat → MigState → Except SqlError MigState

/-- Migration UpdateChildTxidColName: rename transactions.parent_txid to
child_txid, then record the ledger row. -/
def UpdateChildTxidColName : Migration where
  id := "update_child_txid_col_name"
  migrate now st :=
    match renameColumn st.schema.transactions "parent_txid" "child_txid" with
    | .error e => .error e
    | .ok cols =>
      ledgerInsert { st with schema := { st.schema with transactions := cols } }
        "update_child_txid_col_name" now

/-- Migration AddTxNotSeenInMempool: add transactions.seen_in_mempool
(BOOLEAN NOT NULL DEFAULT TRUE), then record the ledger row. -/
def AddTxNotSeenInMempool : Migration where
  id := "add_tx_not_seen_in_mempool"
  migrate now st :=
    match addColumn st.schema.transactions "seen_in_mempool" with
    | .error e => .error e
    | .ok cols =>
      ledgerInsert { st with schema := { st.schema with transactions := cols } }
        "add_tx_not_seen_in_mempool" now

/-- Migration AddReplacementTxid: add rbf.replaces, then record the ledger row. -/
def AddReplacementTxid : Migration where
  id := "add_replacement_txid"
  migrate now st :=
    match addColumn st.schema.rbf "replaces" with
    | .error e => .error e
    | .ok cols =>
      ledgerInsert { st with schema := { st.schema with rbf := cols } }
        "add_replacement_txid" now

/-- Migration AddIsCpfpParent: despite its name, its SQL adds the column
transactions.parent_txid (id "parent_txid"), then records the ledger row. -/
def AddIsCpfpParent : Migration where
  id := "parent_txid"
  migrate now st :=
    match addColumn st.schema.transactions "parent_txid" with
    | .error e => .error e
    | .ok cols =>
      ledgerInsert { st with schema := { st.schema with transactions := cols } }
        "parent_txid" now

def already_applied (st : MigState) (id : String) : Bool :=
  (st.ledger.map Prod.fst).contains id

/-- The fixed declaration-order migration list of run_migrations. -/
def migrationList : List Migration :=
  [UpdateChildTxidColName, AddTxNotSeenInMempool, AddReplacementTxid, AddIsCpfpParent]

def applyMigration (now : Nat) (st : MigState) (m : Migration) : Except SqlError MigState :=
  if already_applied st m.id then .ok st else m.migrate now st

/-- The for-loop of run_migrations over a migration list: skip an applied
migration, run a fresh one, propagate the first error. -/
def runMigList (now : Nat) : List Migration → MigState → Except SqlError MigState
  | [], st => .ok st
  | m :: rest, st =>
    match applyMigration now st m with
    | .error e => .error e
    | .ok st2 => runMigList now rest st2

def run_migrations (now : Nat) (st : MigState) : Except SqlError MigState :=
  runMigList now migrationList st

/-- Columns of the transactions table as created by Database::new. -/
def transactionsColumnsInitial : List String :=
  ["inputs_hash", "tx_id", "tx_data", "found_at", "mined_at", "pruned_at",
   "parent_txid", "absolute_fee", "fee_rate", "version"]

/-- Columns of the rbf table as created by Database::new. -/
def rbfColumnsInitial : List String :=
  ["inputs_hash", "created_at", "fee_total", "version"]

def freshMigState : MigState :=
  { schema := { transactions := transactionsColumnsInitial, rbf := rbfColumnsInitial },
    ledger := [] }

/-- The schema after Database::new plus run_migrations (the state every store
operation runs against). -/
def migratedState : MigState :=
  (run_migrations 0 freshMigState).toOption.getD freshMigState

/-- Validity of the statement "UPDATE transactions SET child_txid = ?1,
is_cpfp_parent = TRUE WHERE tx_id = ?2" issued by insert_mempool_tx: SQLite
rejects an UPDATE naming a column the table does not have. -/
def cpfp_update_stmt_ok : Bool :=
  ["child_txid", "is_cpfp_parent"].all (fun c => migratedState.schema.transactions.contains c)

/-! The store: the transactions and rbf tables as association lists keyed by
the inputs-hash digest, plus the append-only mempool and mining_info tables.
INSERT OR REPLACE deletes the conflicting row and appends the new one (fresh
rowid), which is how SQLite orders an unordered SELECT afterwards. -/

structure TxRow where
  tx_id : Bytes
  tx_data : Bytes
  found_at : Nat
  mined_at : Option Nat
  pruned_at : Option Nat
  child_txid : Option Bytes
  parent_txid : Option Bytes
  seen_in_mempool : Bool
  absolute_fee : Nat
  fee_rate : Nat
  version : Nat
deriving DecidableEq, Repr

structure RbfRow where
  created_at : Nat
  fee_total : Nat
  replaces : Option Bytes
  version : Nat
deriving DecidableEq, Repr

structure MempoolRow where
  created_at : Nat
  size : Nat
  tx_count : Nat
  block_height : Nat
  block_hash : Bytes
  version : Nat
deriving DecidableEq, Repr

structure Store where
  txs : List (Bytes × TxRow)
  rbf : List (Bytes × RbfRow)
  mempool : List MempoolRow
  mining_info : List (Nat × String)
deriving DecidableEq, Repr

def emptyStore : Store := { txs := [], rbf := [], mempool := [], mining_info := [] }

def findRow {α : Type} : List (Bytes × α) → Bytes → Option α
  | [], _ => none
  | (k2, r) :: t, k => if k2 = k then some r else findRow t k

def removeKey {α : Type} : List (Bytes × α) → Bytes → List (Bytes × α)
  | [], _ => []
  | (k2, r) :: t, k => if k2 = k then removeKey t k else (k2, r) :: removeKey t k

def insertOrReplace {α : Type} (l : List (Bytes × α)) (k : Bytes) (v : α) :
    List (Bytes × α) :=
  removeKey l k ++ [(k, v)]

def updateRowsWhere {α : Type} (l : List (Bytes × α)) (pred : Bytes → α → Bool)
    (f : α → α) : List (Bytes × α) :=
  l.map (fun p => if pred p.1 p.2 then (p.1, f p.2) else p)

/-! Store operations (database.rs).  Every now!() call site becomes an explicit
clock argument. -/

/-- Database::tx_exists: SELECT COUNT(*) WHERE inputs_hash = ?, read as a
nonzero test. -/
def tx_exists (s : Store) (tx : Transaction) : Bool :=
  (findRow s.txs (get_inputs_hash tx.input)).isSome

/-- Database::record_coinbase_tx: refuse non-coinbase silently; otherwise
INSERT OR REPLACE keyed by the txid, with mined_at set and the default TRUE for
the unnamed seen_in_mempool column.  now!() is invoked once for found_at and
once again for mined_at. -/
def record_coinbase_tx (s : Store) (tx : Transaction) (found_now mined_now : Nat) : Store :=
  if !tx.is_coinbase then s
  else
    let row : TxRow :=
      { tx_id := compute_txid tx
        tx_data := encodeTx tx
        found_at := found_now
        mined_at := some mined_now
        pruned_at := none
        child_txid := none
        parent_txid := none
        seen_in_mempool := true
        absolute_fee := 0
        fee_rate := FeeRate.zero.to_sat_per_vb_ceil
        version := 0 }
    { s with txs := insertOrReplace s.txs (compute_txid tx) row }

/-- Database::record_mined_tx: prune witnesses, then UPDATE the row keyed by
the inputs hash, setting mined_at, the pruned serialization and
seen_in_mempool.  A plain UPDATE: when no row matches, nothing is written. -/
def record_mined_tx (s : Store) (tx : Transaction) (now : Nat) : Store :=
  let tx2 := prune_large_witnesses tx
  let inputs_hash := get_inputs_hash tx2.input
  let tx_str := encodeTx tx2
  let tx_in_mempool := tx_exists s tx2
  let upd : TxRow → TxRow := fun r =>
    { r with mined_at := some now, tx_data := tx_str, seen_in_mempool := tx_in_mempool }
  { s with txs := updateRowsWhere s.txs (fun k _ => k == inputs_hash) upd }

/-- Database::txids_in_mempool: tx_id of every row with pruned_at and mined_at
both NULL. -/
def txids_in_mempool (s : Store) : List Bytes :=
  (s.txs.filter (fun p => p.2.pruned_at.isNone && p.2.mined_at.isNone)).map
    (fun p => p.2.tx_id)

/-- Database::txids_of_txs_not_in_list: live txids absent from the given list;
an empty input list short-circuits to the empty result. -/
def txids_of_txs_not_in_list (s : Store) (txids : List Bytes) : List Bytes :=
  let mempool_txids := txids_in_mempool s
  if txids.isEmpty then []
  else mempool_txids.filter (fun t => !txids.contains t)

/-- Database::record_pruned_txs: set pruned_at on every row whose tx_id is in
the list; empty list is a no-op. -/
def record_pruned_txs (s : Store) (txids : List Bytes) (now : Nat) : Store :=
  if txids.isEmpty then s
  else
    let upd : TxRow → TxRow := fun r => { r with pruned_at := some now }
    { s with txs := updateRowsWhere s.txs (fun _ r => txids.contains r.tx_id) upd }

/-- The per-input CPFP loop of Database::insert_mempool_tx.  For each input
whose previous-output txid matches a live row, the source issues an UPDATE
that also assigns is_cpfp_parent; the statement is valid only if the migrated
schema has that column (cpfp_update_stmt_ok), otherwise SQLite fails it and
the error propagates before any insert happens. -/
def cpfpLoop (inputs : List TxIn) (txs : List (Bytes × TxRow)) (tx_id : Bytes) :
    Except SqlError (List (Bytes × TxRow)) :=
  match inputs with
  | [] => .ok txs
  | input :: rest =>
    let parent_txid := input.previous_output.txid
    let txid_exists := txs.any (fun p =>
      p.2.tx_id == parent_txid && p.2.mined_at.isNone && p.2.pruned_at.isNone)
    if txid_exists then
      if cpfp_update_stmt_ok then
        cpfpLoop rest
          (updateRowsWhere txs (fun _ r => r.tx_id == parent_txid)
            (fun r => { r with child_txid := some tx_id })) tx_id
      else .error .noSuchColumn
    else cpfpLoop rest txs tx_id

/-- Database::insert_mempool_tx: run the CPFP loop, then INSERT OR REPLACE the
row keyed by the inputs hash; found_at defaults to now, the unnamed
seen_in_mempool column defaults to TRUE, unnamed nullable columns to NULL. -/
def insert_mempool_tx (s : Store) (tx : Transaction) (found_at : Option Nat)
    (now : Nat) (absolute_fee : Nat) (fee_rate : FeeRate) : Except SqlError Store :=
  let inputs_hash := get_inputs_hash tx.input
  let tx_str := encodeTx tx
  let tx_id := compute_txid tx
  let found := found_at.getD now
  let row : TxRow :=
    { tx_id := tx_id
      tx_data := tx_str
      found_at := found
      mined_at := none
      pruned_at := none
      child_txid := none
      parent_txid := none
      seen_in_mempool := true
      absolute_fee := absolute_fee
      fee_rate := fee_rate.to_sat_per_vb_ceil
      version := 1 }
  match cpfpLoop tx.input s.txs tx_id with
  | .error e => .error e
  | .ok txs1 => .ok { s with txs := insertOrReplace txs1 inputs_hash row }

/-- Database::record_rbf: no-op when no row exists for the inputs hash;
otherwise INSERT OR REPLACE the rbf row with replaces set to the txid of the
given (replacement) transaction.  The fee-rate argument is unused in the
source. -/
def record_rbf (s : Store) (tx : Transaction) (fee_total : Nat)
    (_fee_rate : FeeRate) (now : Nat) : Store :=
  if !tx_exists s tx then s
  else
    let row : RbfRow :=
      { created_at := now, fee_total := fee_total,
        replaces := some (compute_txid tx), version := 1 }
    { s with rbf := insertOrReplace s.rbf (get_inputs_hash tx.input) row }

/-- Database::update_txid_by_inputs_hash: UPDATE the tx_id of the row keyed by
the inputs hash of the given transaction. -/
def update_txid_by_inputs_hash (s : Store) (tx : Transaction) : Store :=
  let upd : TxRow → TxRow := fun r => { r with tx_id := compute_txid tx }
  { s with txs := updateRowsWhere s.txs (fun k _ => k == get_inputs_hash tx.input) upd }

/-- Database::remove_stale_txs: delete every row with both mined_at and
pruned_at NULL. -/
def remove_stale_txs (s : Store) : Store :=
  { s with txs := s.txs.filter (fun p =>
      !(p.2.pruned_at.isNone && p.2.mined_at.isNone)) }

/-- Database::record_mempool_state: appended row (the tx_id primary key is
never supplied, so rows never conflict). -/
def record_mempool_state (s : Store) (now mempool_size mempool_tx_count block_height : Nat)
    (block_hash : Bytes) : Store :=
  let row : MempoolRow :=
    { created_at := now, size := mempool_size, tx_count := mempool_tx_count,
      block_height := block_height, block_hash := block_hash, version := 1 }
  { s with mempool := s.mempool ++ [row] }

/-- Database::record_mining_info: appended row. -/
def record_mining_info (s : Store) (now : Nat) (doc : String) : Store :=
  { s with mining_info := s.mining_info ++ [(now, doc)] }

/-! Consensus decoding (rust-bitcoin Transaction::consensus_decode), used by
the worker on raw ZMQ payloads.  Parsers return the value and the unread rest;
decoding from a slice ignores trailing bytes. -/

def leVal : Bytes → Nat
  | [] => 0
  | b :: t => b + 256 * leVal t

def readBytesP (n : Nat) (bs : Bytes) : Option (Bytes × Bytes) :=
  if n ≤ bs.length then some (bs.take n, bs.drop n) else none

def readLE (width : Nat) (bs : Bytes) : Option (Nat × Bytes) :=
  match readBytesP width bs with
  | some (chunk, rest) => some (leVal chunk, rest)
  | none => none

/-- Compact-size decoding; non-minimal encodings are rejected as the consensus
decoder rejects them. -/
def readVarInt (bs : Bytes) : Option (Nat × Bytes) :=
  match bs with
  | [] => none
  | b :: rest =>
    if b < 0xfd then some (b, rest)
    else if b = 0xfd then
      match readLE 2 rest with
      | some (v, r2) => if 0xfd ≤ v then some (v, r2) else none
      | none => none
    else if b = 0xfe then
      match readLE 4 rest with
      | some (v, r2) => if 0x10000 ≤ v then some (v, r2) else none
      | none => none
    else
      match readLE 8 rest with
      | some (v, r2) => if 0x100000000 ≤ v then some (v, r2) else none
      | none => none

def readMany {α : Type} (p : Bytes → Option (α × Bytes)) :
    Nat → Bytes → Option (List α × Bytes)
  | 0, bs => some ([], bs)
  | n + 1, bs =>
    match p bs with
    | some (a, r) =>
      match readMany p n r with
      | some (as2, r2) => some (a :: as2, r2)
      | none => none
    | none => none

def readVec {α : Type} (p : Bytes → Option (α × Bytes)) (bs : Bytes) :
    Option (List α × Bytes) :=
  match readVarInt bs with
  | some (n, r) => readMany p n r
  | none => none

def readScript (bs : Bytes) : Option (Bytes × Bytes) :=
  match readVarInt bs with
  | some (n, r) => readBytesP n r
  | none => none

def readOutPoint (bs : Bytes) : Option (OutPoint × Bytes) :=
  match readBytesP 32 bs with
  | some (txid, r1) =>
    match readLE 4 r1 with
    | some (vout, r2) => some ({ txid := txid, vout := vout }, r2)
    | none => none
  | none => none

def readTxIn (bs : Bytes) : Option (TxIn × Bytes) :=
  match readOutPoint bs with
  | some (op, r1) =>
    match readScript r1 with
    | some (sig, r2) =>
      match readLE 4 r2 with
      | some (seq, r3) =>
        some ({ previous_output := op, script_sig := sig, sequence := seq,
                witness := [] }, r3)
      | none => none
    | none => none
  | none => none

def readTxOut (bs : Bytes) : Option (TxOut × Bytes) :=
  match readLE 8 bs with
  | some (v, r1) =>
    match readScript r1 with
    | some (spk, r2) => some ({ value := v, script_pubkey := spk }, r2)
    | none => none
  | none => none

def readWitness (bs : Bytes) : Option (List Bytes × Bytes) :=
  readVec readScript bs

/-- Transaction::consensus_decode: version, inputs; an empty input vector is
the segwit marker, demanding flag 1, a second input vector, outputs, one
witness per input (rejecting a segwit framing whose witnesses are all empty),
and the lock time; otherwise outputs and lock time follow directly. -/
def decodeTransactionBytes (bs : Bytes) : Option (Transaction × Bytes) :=
  match readLE 4 bs with
  | none => none
  | some (version, r1) =>
    match readVec readTxIn r1 with
    | none => none
    | some (input, r2) =>
      if input.isEmpty then
        match r2 with
        | [] => none
        | segwit_flag :: r3 =>
          if segwit_flag = 1 then
            match readVec readTxIn r3 with
            | none => none
            | some (input2, r4) =>
              match readVec readTxOut r4 with
              | none => none
              | some (output, r5) =>
                match readMany readWitness input2.length r5 with
                | none => none
                | some (wits, r6) =>
                  let input3 := List.zipWith
                    (fun (i : TxIn) w => { i with witness := w }) input2 wits
                  if !input3.isEmpty && input3.all (fun i => i.witness.isEmpty) then
                    none
                  else
                    match readLE 4 r6 with
                    | none => none
                    | some (lock_time, r7) =>
                      some ({ version := version, lock_time := lock_time,
                              input := input3, output := output }, r7)
          else none
      else
        match readVec readTxOut r2 with
        | none => none
        | some (output, r3) =>
          match readLE 4 r3 with
          | none => none
          | some (lock_time, r4) =>
            some ({ version := version, lock_time := lock_time,
                    input := input, output := output }, r4)

def decodeTransaction (bs : Bytes) : Option Transaction :=
  (decodeTransactionBytes bs).map Prod.fst

/-! The worker (worker.rs).  External calls are an environment of responses;
None models a transport or RPC failure.  An Outcome separates a value, an
error returned from the function, and a Rust panic. -/

inductive Outcome (α : Type) where
  | ok (a : α)
  | err
  | panic
deriving DecidableEq, Repr

structure RpcEnv where
  get_raw_transaction_verbosity_zero : Bytes → Option Transaction
  get_raw_transaction_verbosity_one : Bytes → Option (Option Nat)
  get_raw_mempool : Option (List Bytes)
  get_mempool_info : Option (Nat × Nat)
  get_block_count : Option Nat
  get_block_hash : Nat → Option Bytes
  hash_rate_distribution : Option String

/-- The input-value accumulation loop of get_absolute_fee: null outpoints are
skipped, an RPC failure propagates as a returned error, a previous-output
index out of bounds panics (Vec indexing), and u64 overflow of += panics. -/
def sumInputValuesAux (rpc : RpcEnv) (acc : Nat) : List TxIn → Outcome Nat
  | [] => .ok acc
  | vin :: rest =>
    if vin.previous_output.is_null then sumInputValuesAux rpc acc rest
    else
      match rpc.get_raw_transaction_verbosity_zero vin.previous_output.txid with
      | none => .err
      | some prev_tx =>
        match prev_tx.output.get? vin.previous_output.vout with
        | none => .panic
        | some prev_txout =>
          let acc2 := acc + prev_txout.value
          if U64MAX < acc2 then .panic else sumInputValuesAux rpc acc2 rest

/-- Summing the output values with Amount addition, which panics on u64
overflow; none models the panic. -/
def sumOutputValuesAux (acc : Nat) : List TxOut → Option Nat
  | [] => some acc
  | vout :: rest =>
    let acc2 := acc + vout.value
    if U64MAX < acc2 then none else sumOutputValuesAux acc2 rest

/-- worker.rs get_absolute_fee: zero for coinbase; otherwise resolve and sum
the input values, sum the output values, and subtract with Amount
subtraction, which panics when the result would be negative. -/
def get_absolute_fee (tx : Transaction) (rpc : RpcEnv) : Outcome Nat :=
  if tx.is_coinbase then .ok 0
  else
    match sumInputValuesAux rpc 0 tx.input with
    | .ok input_value =>
      match sumOutputValuesAux 0 tx.output with
      | none => .panic
      | some output_value =>
        if input_value < output_value then .panic
        else .ok (input_value - output_value)
    | .err => .err
    | .panic => .panic

inductive Task where
  | RawTx (payload : Bytes)
  | PruneCheck
  | MempoolState
  | MiningInfo
deriving DecidableEq, Repr

/-- One loop iteration of TaskContext::run.  ok is a continue with the new
store; err is a question-mark propagation that makes run return Err and the
worker terminate; panic aborts the task. -/
def processTask (rpc : RpcEnv) (s : Store) (now : Nat) : Task → Outcome Store
  | .MiningInfo =>
    match rpc.hash_rate_distribution with
    | none => .err
    | some doc => .ok (record_mining_info s now doc)
  | .MempoolState =>
    match rpc.get_mempool_info with
    | none => .err
    | some info =>
      match rpc.get_block_count with
      | none => .err
      | some block_height =>
        match rpc.get_block_hash block_height with
        | none => .err
        | some block_hash =>
          .ok (record_mempool_state s now info.1 info.2 block_height block_hash)
  | .PruneCheck =>
    match rpc.get_raw_mempool with
    | none => .ok s
    | some txids =>
      .ok (record_pruned_txs s (txids_of_txs_not_in_list s txids) now)
  | .RawTx raw =>
    match decodeTransaction raw with
    | none => .err
    | some tx =>
      if tx.is_coinbase then .ok (record_coinbase_tx s tx now now)
      else
        match rpc.get_raw_transaction_verbosity_one (compute_txid tx) with
        | none => .ok s
        | some confirmations =>
          let is_mined := 0 < confirmations.getD 0
          match get_absolute_fee tx rpc with
          | .panic => .panic
          | .err => .ok s
          | .ok fee =>
            match compute_fee_rate tx fee with
            | .error _ => .ok s
            | .ok fee_rate =>
              if is_mined then .ok (record_mined_tx s tx now)
              else if tx_exists s tx then
                .ok (update_txid_by_inputs_hash (record_rbf s tx fee fee_rate now) tx)
              else
                match insert_mempool_tx s tx none now fee fee_rate with
                | .ok s2 => .ok s2
                | .error _ => .err

/-- TaskContext::run over a queue of timestamped tasks: loop until the queue
is drained, stopping early when an iteration returns Err or panics. -/
def runWorker (rpc : RpcEnv) (s : Store) : List (Nat × Task) → Outcome Store
  | [] => .ok s
  | (now, t) :: rest =>
    match processTask rpc s now t with
    | .ok s2 => runWorker rpc s2 rest
    | .err => .err
    | .panic => .panic

/-! Sequences of store operations, for the store-wide invariants.  Each
constructor carries the operation's arguments together with the clock values
of its now!() call sites. -/

inductive Op where
  | insert (tx : Transaction) (found_at : Option Nat) (now fee : Nat) (fr : FeeRate)
  | mined (tx : Transaction) (now : Nat)
  | coinbase (tx : Transaction) (found_now mined_now : Nat)
  | rbf (tx : Transaction) (fee_total : Nat) (fr : FeeRate) (now : Nat)
  | updateTxid (tx : Transaction)
  | pruned (txids : List Bytes) (now : Nat)
  | removeStale

/-- Apply one operation; a statement error leaves the store unchanged (each
statement is transactional and the error aborts the operation before its
insert). -/
def applyOp (s : Store) : Op → Store
  | .insert tx f now fee fr =>
    match insert_mempool_tx s tx f now fee fr with
    | .ok s2 => s2
    | .error _ => s
  | .mined tx now => record_mined_tx s tx now
  | .coinbase tx fn mn => record_coinbase_tx s tx fn mn
  | .rbf tx ft fr now => record_rbf s tx ft fr now
  | .updateTxid tx => update_txid_by_inputs_hash s tx
  | .pruned txids now => record_pruned_txs s txids now
  | .removeStale => remove_stale_txs s

def applySeq (s : Store) (ops : List Op) : Store := ops.foldl applyOp s

/-- A row with at most one of mined_at and pruned_at set. -/
def rowConsistent (r : TxRow) : Bool := !(r.mined_at.isSome && r.pruned_at.isSome)

/-- The claimed invariant: no row carries both mined_at and pruned_at. -/
def storeOk (s : Store) : Bool := s.txs.all (fun p => rowConsistent p.2)

/-- Guard on an operation in the current state: record_mined_tx must not hit a
row already pruned, and record_pruned_txs must not name the txid of a row
already mined.  All other operations are unconditionally safe. -/
def opGuard (s : Store) : Op → Bool
  | .mined tx _ =>
    let h := get_inputs_hash (prune_large_witnesses tx).input
    s.txs.all (fun p => !(p.1 == h) || p.2.pruned_at.isNone)
  | .pruned txids _ =>
    s.txs.all (fun p => !(txids.contains p.2.tx_id) || p.2.mined_at.isNone)
  | _ => true

/-- A trace whose every step satisfies its guard in the state it runs in. -/
def safeTrace (s : Store) : List Op → Bool
  | [] => true
  | op :: rest => opGuard s op && safeTrace (applyOp s op) rest

/-- The value get_absolute_fee resolves for one input when every RPC lookup
and output-index access succeeds: zero for a skipped null outpoint, otherwise
the value of the referenced previous output. -/
def resolved_prev_value (rpc : RpcEnv) (vin : TxIn) : Nat :=
  if vin.previous_output.is_null then 0
  else
    match rpc.get_raw_transaction_verbosity_zero vin.previous_output.txid with
    | none => 0
    | some prev =>
      match prev.output.get? vin.previous_output.vout with
      | none => 0
      | some o => o.value

/-- Per-migration contract: a successful migrate appends exactly its own
ledger row, timestamped with the current clock. -/
def MigrationAppends (m : Migration) : Prop :=
  ∀ now st st2, m.migrate now st = .ok st2 → st2.ledger = st.ledger ++ [(m.id, now)]

/-! Concrete inputs used by the closed counterexamples and witnesses. -/

/-- A transaction with no inputs and no outputs (weight 40, 10 vbytes). -/
def t0 : Transaction := { version := 0, lock_time := 0, input := [], output := [] }

/-- A one-input, one-output transaction spending a fixed outpoint. -/
def txA : Transaction :=
  { version := 2, lock_time := 0,
    input := [{ previous_output := { txid := List.replicate 32 1, vout := 0 },
                script_sig := [], sequence := 4294967295, witness := [] }],
    output := [{ value := 50000, script_pubkey := [0x51] }] }

/-- A transaction spending output 0 of txA (a CPFP child of txA). -/
def childOfA : Transaction :=
  { version := 2, lock_time := 0,
    input := [{ previous_output := { txid := compute_txid txA, vout := 0 },
                script_sig := [], sequence := 4294967295, witness := [] }],
    output := [{ value := 40000, script_pubkey := [0x51] }] }

/-- The store after inserting txA as a mempool transaction into the empty
store. -/
def sWithA : Store :=
  (insert_mempool_tx emptyStore txA none 1 100 ⟨0⟩).toOption.getD emptyStore

/-- A replacement for txA: identical inputs (hence identical inputs-hash) but
a different output, so a different txid. -/
def txB : Transaction :=
  { version := 2, lock_time := 0,
    input := [{ previous_output := { txid := List.replicate 32 1, vout := 0 },
                script_sig := [], sequence := 4294967295, witness := [] }],
    output := [{ value := 45000, script_pubkey := [0x51] }] }

/-- The row sWithA holds for txA's inputs-hash. -/
def rowA : TxRow :=
  { tx_id := compute_txid txA
    tx_data := encodeTx txA
    found_at := 1
    mined_at := none
    pruned_at := none
    child_txid := none
    parent_txid := none
    seen_in_mempool := true
    absolute_fee := 100
    fee_rate := 0
    version := 1 }

/-- The previous transaction txA spends: one output worth 5 satoshis, so txA
spends far more than it takes in. -/
def prevTxA : Transaction :=
  { version := 1, lock_time := 0, input := [],
    output := [{ value := 5, script_pubkey := [] }] }

/-- An RPC environment resolving only txA's previous output. -/
def rpc1 : RpcEnv :=
  { get_raw_transaction_verbosity_zero := fun t =>
      if t == List.replicate 32 1 then some prevTxA else none
    get_raw_transaction_verbosity_one := fun _ => none
    get_raw_mempool := none
    get_mempool_info := none
    get_block_count := none
    get_block_hash := fun _ => none
    hash_rate_distribution := none }

/-- A coinbase transaction: one input spending the null outpoint. -/
def cbTx : Transaction :=
  { version := 1, lock_time := 0,
    input := [{ previous_output := OutPoint.null, script_sig := [0x01, 0x02],
                sequence := 4294967295, witness := [] }],
    output := [{ value := 5000000000, script_pubkey := [0x51] }] }

/-- A transaction spending the resolvable outpoint with outputs below the
resolved input value, so its fee is well defined. -/
def txC : Transaction :=
  { version := 2, lock_time := 0,
    input := [{ previous_output := { txid := List.replicate 32 1, vout := 0 },
                script_sig := [], sequence := 0, witness := [] }],
    output := [{ value := 3, script_pubkey := [] }] }

/-- The migration state after running the migrations at clock 5 on the fresh
schema. -/
def migratedState5 : MigState :=
  (run_migrations 5 freshMigState).toOption.getD freshMigState

/-! Theorems.  First the known-answer checks for the hash layer, then helper
lemmas, then one theorem (with witness or counterexample) per claim. -/

/-- Known-answer check: SHA-256 of the empty message. -/
theorem sha256_empty_kat :
    sha256 [] =
      [0xe3, 0xb0, 0xc4, 0x42, 0x98, 0xfc, 0x1c, 0x14, 0x9a, 0xfb, 0xf4, 0xc8,
       0x99, 0x6f, 0xb9, 0x24, 0x27, 0xae, 0x41, 0xe4, 0x64, 0x9b, 0x93, 0x4c,
       0xa4, 0x95, 0x99, 0x1b, 0x78, 0x52, 0xb8, 0x55] := by decide

/-- Known-answer check: SHA-256 of the three bytes "abc". -/
theorem sha256_abc_kat :
    sha256 [0x61, 0x62, 0x63] =
      [0xba, 0x78, 0x16, 0xbf, 0x8f, 0x01, 0xcf, 0xea, 0x41, 0x41, 0x40, 0xde,
       0x5d, 0xae, 0x22, 0x23, 0xb0, 0x03, 0x61, 0xa3, 0x96, 0x17, 0x7a, 0x9c,
       0xb4, 0x10, 0xff, 0x61, 0xf2, 0x00, 0x15, 0xad] := by decide

/-- Decoding inverts encoding on the sample transaction. -/
theorem decode_encode_txA : decodeTransaction (encodeTx txA) = some txA := by decide

/-- Pruning witnesses does not change the inputs hash: the consensus encoding
of a TxIn does not include the witness. -/
theorem get_inputs_hash_prune (tx : Transaction) :
    get_inputs_hash (prune_large_witnesses tx).input = get_inputs_hash tx.input := by
  simp only [get_inputs_hash, prune_large_witnesses, List.map_map]
  have h2 : (encodeTxIn ∘ fun i : TxIn => { i with witness := [] }) = encodeTxIn := by
    funext i; cases i; rfl
  rw [h2]

theorem updateRowsWhere_cons {α : Type} (p : Bytes × α) (t : List (Bytes × α))
    (pred : Bytes → α → Bool) (f : α → α) :
    updateRowsWhere (p :: t) pred f =
      (if pred p.1 p.2 then (p.1, f p.2) else p) :: updateRowsWhere t pred f := rfl

theorem findRow_updateKey {α : Type} (l : List (Bytes × α)) (h : Bytes) (f : α → α) :
    findRow (updateRowsWhere l (fun k _ => k == h) f) h = (findRow l h).map f := by
  induction l with
  | nil => rfl
  | cons p t ih =>
    obtain ⟨k2, r⟩ := p
    rw [updateRowsWhere_cons]
    by_cases hk : k2 = h
    · rw [if_pos (beq_iff_eq.mpr hk), findRow, if_pos hk, findRow, if_pos hk]
      rfl
    · rw [if_neg (by simpa using hk), findRow, if_neg hk, findRow, if_neg hk]
      exact ih

theorem findRow_updateKey_ne {α : Type} (l : List (Bytes × α)) (h k : Bytes) (f : α → α)
    (hne : k ≠ h) :
    findRow (updateRowsWhere l (fun k2 _ => k2 == h) f) k = findRow l k := by
  induction l with
  | nil => rfl
  | cons p t ih =>
    obtain ⟨k2, r⟩ := p
    rw [updateRowsWhere_cons]
    by_cases hk : k2 = h
    · have hpk : ¬ k2 = k := by rw [hk]; exact fun e => hne e.symm
      rw [if_pos (beq_iff_eq.mpr hk), findRow, if_neg hpk, findRow, if_neg hpk]
      exact ih
    · rw [if_neg (by simpa using hk), findRow, findRow]
      by_cases hk2 : k2 = k
      · rw [if_pos hk2, if_pos hk2]
      · rw [if_neg hk2, if_neg hk2]
        exact ih

theorem findRow_none_updateKey {α : Type} (l : List (Bytes × α)) (h : Bytes) (f : α → α)
    (hnone : findRow l h = none) :
    updateRowsWhere l (fun k _ => k == h) f = l := by
  induction l with
  | nil => rfl
  | cons p t ih =>
    obtain ⟨k2, r⟩ := p
    by_cases hk : k2 = h
    · rw [findRow, if_pos hk] at hnone
      exact Option.noConfusion hnone
    · rw [findRow, if_neg hk] at hnone
      rw [updateRowsWhere_cons, if_neg (by simpa using hk), ih hnone]

theorem findRow_removeKey_self {α : Type} (l : List (Bytes × α)) (k : Bytes) :
    findRow (removeKey l k) k = none := by
  induction l with
  | nil => rfl
  | cons p t ih =>
    obtain ⟨k2, r⟩ := p
    by_cases hk : k2 = k
    · rw [removeKey, if_pos hk]
      exact ih
    · rw [removeKey, if_neg hk, findRow, if_neg hk]
      exact ih

theorem findRow_removeKey_ne {α : Type} (l : List (Bytes × α)) (k k2 : Bytes)
    (hne : k2 ≠ k) : findRow (removeKey l k) k2 = findRow l k2 := by
  induction l with
  | nil => rfl
  | cons p t ih =>
    obtain ⟨k3, r⟩ := p
    by_cases hk : k3 = k
    · have hpk : ¬ k3 = k2 := by rw [hk]; exact fun e => hne e.symm
      rw [removeKey, if_pos hk, ih, findRow, if_neg hpk]
    · rw [removeKey, if_neg hk, findRow, findRow]
      by_cases hk2 : k3 = k2
      · rw [if_pos hk2, if_pos hk2]
      · rw [if_neg hk2, if_neg hk2]
        exact ih

theorem findRow_append_of_none {α : Type} (l1 l2 : List (Bytes × α)) (k : Bytes)
    (h : findRow l1 k = none) : findRow (l1 ++ l2) k = findRow l2 k := by
  induction l1 with
  | nil => rfl
  | cons p t ih =>
    obtain ⟨k2, r⟩ := p
    by_cases hk : k2 = k
    · rw [findRow, if_pos hk] at h
      exact Option.noConfusion h
    · rw [findRow, if_neg hk] at h
      rw [List.cons_append, findRow, if_neg hk]
      exact ih h

theorem findRow_insertOrReplace_self {α : Type} (l : List (Bytes × α)) (k : Bytes) (v : α) :
    findRow (insertOrReplace l k v) k = some v := by
  rw [insertOrReplace, findRow_append_of_none _ _ _ (findRow_removeKey_self l k)]
  rw [findRow, if_pos rfl]

theorem findRow_append_of_some {α : Type} (l1 l2 : List (Bytes × α)) (k : Bytes) (r : α)
    (h : findRow l1 k = some r) : findRow (l1 ++ l2) k = some r := by
  induction l1 with
  | nil => exact Option.noConfusion h
  | cons p t ih =>
    obtain ⟨k2, r2⟩ := p
    by_cases hk : k2 = k
    · rw [findRow, if_pos hk] at h
      rw [List.cons_append, findRow, if_pos hk]
      exact h
    · rw [findRow, if_neg hk] at h
      rw [List.cons_append, findRow, if_neg hk]
      exact ih h

theorem findRow_insertOrReplace_ne {α : Type} (l : List (Bytes × α)) (k k2 : Bytes) (v : α)
    (hne : k2 ≠ k) : findRow (insertOrReplace l k v) k2 = findRow l k2 := by
  rw [insertOrReplace]
  cases h : findRow l k2 with
  | none =>
    rw [findRow_append_of_none]
    · rw [findRow, if_neg (fun e => hne e.symm)]
      rfl
    · rw [findRow_removeKey_ne l k k2 hne]
      exact h
  | some r =>
    exact findRow_append_of_some _ _ _ _ (by rw [findRow_removeKey_ne l k k2 hne]; exact h)

/-- C2 (counterexample): on a store with no row for the transaction's
inputs-hash, record_mined_tx writes nothing at all — there is no row marked
"not seen in mempool" afterwards, contrary to the claim. -/
theorem c2_counterexample :
    findRow (record_mined_tx emptyStore txA 7).txs (get_inputs_hash txA.input) = none ∧
    (record_mined_tx emptyStore txA 7).txs = [] := by decide

/-- C2 (amended): record_mined_tx clears all input witnesses in the stored
serialization, and when a row exists for the inputs-hash it sets mined_at to
now, tx_data to the pruned encoding and seen_in_mempool to true (the row
existed before the call), leaving all other rows unchanged; when no row
exists, the store is unchanged — no row is written. -/
theorem c2_amended (s : Store) (tx : Transaction) (now : Nat) :
    (prune_large_witnesses tx).input.all (fun i => i.witness.isEmpty) = true ∧
    (∀ row, findRow s.txs (get_inputs_hash tx.input) = some row →
      findRow (record_mined_tx s tx now).txs (get_inputs_hash tx.input) =
        some { row with mined_at := some now,
                        tx_data := encodeTx (prune_large_witnesses tx),
                        seen_in_mempool := true } ∧
      (∀ k, k ≠ get_inputs_hash tx.input →
        findRow (record_mined_tx s tx now).txs k = findRow s.txs k)) ∧
    (findRow s.txs (get_inputs_hash tx.input) = none →
      record_mined_tx s tx now = s) := by
  refine ⟨?_, ?_, ?_⟩
  · simp [prune_large_witnesses, List.all_eq_true]
  · intro row hrow
    have hex : tx_exists s (prune_large_witnesses tx) = true := by
      simp [tx_exists, get_inputs_hash_prune, hrow]
    constructor
    · simp only [record_mined_tx, get_inputs_hash_prune, hex]
      rw [findRow_updateKey, hrow]
      rfl
    · intro k hk
      simp only [record_mined_tx, get_inputs_hash_prune, hex]
      exact findRow_updateKey_ne s.txs _ k _ hk
  · intro hnone
    simp only [record_mined_tx, get_inputs_hash_prune]
    rw [findRow_none_updateKey _ _ _ hnone]

/-- C2 (witness for the amended theorem). -/
theorem c2_witness :
    findRow (record_mined_tx sWithA txA 7).txs (get_inputs_hash txA.input) =
      some { rowA with mined_at := some 7,
                       tx_data := encodeTx (prune_large_witnesses txA),
                       seen_in_mempool := true } ∧
    record_mined_tx emptyStore txA 7 = emptyStore :=
  ⟨((c2_amended sWithA txA 7).2.1 rowA (by decide)).1,
   (c2_amended emptyStore txA 7).2.2 (by decide)⟩

/-- C5: on a store holding a row for the transaction's inputs-hash, record_rbf
followed by update_txid_by_inputs_hash updates that row's tx_id to the
replacement's txid under the unchanged inputs-hash key, and leaves an rbf row
keyed by the same inputs-hash whose replaces field is the replacement's
txid. -/
theorem c5_rbf_roundtrip (s : Store) (tx : Transaction) (fee_total : Nat) (fr : FeeRate)
    (now : Nat) (row : TxRow)
    (h : findRow s.txs (get_inputs_hash tx.input) = some row) :
    findRow (update_txid_by_inputs_hash (record_rbf s tx fee_total fr now) tx).txs
        (get_inputs_hash tx.input) = some { row with tx_id := compute_txid tx } ∧
    findRow (update_txid_by_inputs_hash (record_rbf s tx fee_total fr now) tx).rbf
        (get_inputs_hash tx.input) =
      some { created_at := now, fee_total := fee_total,
             replaces := some (compute_txid tx), version := 1 } := by
  have hex : tx_exists s tx = true := by simp [tx_exists, h]
  have hrbf : record_rbf s tx fee_total fr now =
      { s with rbf := (insertOrReplace s.rbf (get_inputs_hash tx.input)
        { created_at := now, fee_total := fee_total,
          replaces := some (compute_txid tx), version := 1 }) } := by
    simp only [record_rbf, hex]
    rfl
  constructor
  · simp only [update_txid_by_inputs_hash, hrbf]
    rw [findRow_updateKey, h]
    rfl
  · simp only [update_txid_by_inputs_hash, hrbf]
    exact findRow_insertOrReplace_self s.rbf _ _

/-- C5 (witness): txB replaces txA in sWithA. -/
theorem c5_witness :
    findRow (update_txid_by_inputs_hash (record_rbf sWithA txB 123 ⟨0⟩ 9) txB).txs
        (get_inputs_hash txB.input) = some { rowA with tx_id := compute_txid txB } ∧
    findRow (update_txid_by_inputs_hash (record_rbf sWithA txB 123 ⟨0⟩ 9) txB).rbf
        (get_inputs_hash txB.input) =
      some { created_at := 9, fee_total := 123,
             replaces := some (compute_txid txB), version := 1 } :=
  c5_rbf_roundtrip sWithA txB 123 ⟨0⟩ 9 rowA (by decide)

/-- C10 (frame): the RBF pair record_rbf-then-update_txid_by_inputs_hash
changes only the tx_id field of the row keyed by the inputs-hash — every other
field of that row, every other transactions row, every other rbf row, and the
mempool and mining_info tables are unchanged — and the bumped fee lands only
in the new rbf row's fee_total. -/
theorem c10_rbf_frame (s : Store) (tx : Transaction) (fee_total : Nat) (fr : FeeRate)
    (now : Nat) (row : TxRow) (s2 : Store)
    (h : findRow s.txs (get_inputs_hash tx.input) = some row)
    (hs2 : s2 = update_txid_by_inputs_hash (record_rbf s tx fee_total fr now) tx) :
    findRow s2.txs (get_inputs_hash tx.input) = some { row with tx_id := compute_txid tx } ∧
    (∀ k, k ≠ get_inputs_hash tx.input → findRow s2.txs k = findRow s.txs k) ∧
    (∀ k, k ≠ get_inputs_hash tx.input → findRow s2.rbf k = findRow s.rbf k) ∧
    findRow s2.rbf (get_inputs_hash tx.input) =
      some { created_at := now, fee_total := fee_total,
             replaces := some (compute_txid tx), version := 1 } ∧
    s2.mempool = s.mempool ∧ s2.mining_info = s.mining_info := by
  subst hs2
  have hex : tx_exists s tx = true := by simp [tx_exists, h]
  have hrbf : record_rbf s tx fee_total fr now =
      { s with rbf := (insertOrReplace s.rbf (get_inputs_hash tx.input)
        { created_at := now, fee_total := fee_total,
          replaces := some (compute_txid tx), version := 1 }) } := by
    simp only [record_rbf, hex]
    rfl
  refine ⟨?_, ?_, ?_, ?_, ?_, ?_⟩
  · simp only [update_txid_by_inputs_hash, hrbf]
    rw [findRow_updateKey, h]
    rfl
  · intro k hk
    simp only [update_txid_by_inputs_hash, hrbf]
    exact findRow_updateKey_ne s.txs _ k _ hk
  · intro k hk
    simp only [update_txid_by_inputs_hash, hrbf]
    exact findRow_insertOrReplace_ne s.rbf _ k _ hk
  · simp only [update_txid_by_inputs_hash, hrbf]
    exact findRow_insertOrReplace_self s.rbf _ _
  · simp only [update_txid_by_inputs_hash, hrbf]
  · simp only [update_txid_by_inputs_hash, hrbf]

/-- C10 (witness). -/
theorem c10_witness :
    findRow (update_txid_by_inputs_hash (record_rbf sWithA txB 123 ⟨0⟩ 11) txB).txs
        (get_inputs_hash txB.input) = some { rowA with tx_id := compute_txid txB } ∧
    (update_txid_by_inputs_hash (record_rbf sWithA txB 123 ⟨0⟩ 11) txB).mempool =
      sWithA.mempool :=
  let r := c10_rbf_frame sWithA txB 123 ⟨0⟩ 11 rowA
    (update_txid_by_inputs_hash (record_rbf sWithA txB 123 ⟨0⟩ 11) txB)
    (by decide) rfl
  ⟨r.1, r.2.2.2.2.1⟩

/-- C8: for a non-empty upstream list the result is exactly the live rows'
txids absent from the list, and for the empty upstream list the result is
empty regardless of the store. -/
theorem c8_not_in_list (s : Store) (L : List Bytes) :
    (L ≠ [] → ∀ t, t ∈ txids_of_txs_not_in_list s L ↔
      ((∃ p ∈ s.txs, p.2.pruned_at = none ∧ p.2.mined_at = none ∧ p.2.tx_id = t) ∧
        t ∉ L)) ∧
    txids_of_txs_not_in_list s [] = [] := by
  constructor
  · intro hL t
    have hne : L.isEmpty = false := by
      cases L with
      | nil => exact absurd rfl hL
      | cons a l => rfl
    have hcontains : ∀ u : Bytes, L.contains u = true ↔ u ∈ L := by
      intro u
      exact List.elem_iff
    simp only [txids_of_txs_not_in_list, hne, Bool.false_eq_true, if_false,
      txids_in_mempool, List.mem_filter, List.mem_map]
    constructor
    · rintro ⟨⟨p, hp, rfl⟩, hcon⟩
      obtain ⟨hp1, hp2⟩ := hp
      simp only [Bool.and_eq_true, Option.isNone_iff_eq_none] at hp2
      refine ⟨⟨p, hp1, hp2.1, hp2.2, rfl⟩, ?_⟩
      intro hmem
      rw [Bool.not_eq_true', Bool.eq_false_iff] at hcon
      exact hcon ((hcontains _).mpr hmem)
    · rintro ⟨⟨p, hp, hpr, hmi, rfl⟩, hnot⟩
      refine ⟨⟨p, ⟨hp, ?_⟩, rfl⟩, ?_⟩
      · simp [hpr, hmi]
      · rw [Bool.not_eq_true', Bool.eq_false_iff]
        intro hc
        exact hnot ((hcontains _).mp hc)
  · rfl

/-- C8 (witness): sWithA holds one live row (txA); with a non-empty upstream
list not containing txA's txid the membership characterization applies, and
the empty upstream list yields the empty result. -/
theorem c8_witness :
    (compute_txid txA ∈ txids_of_txs_not_in_list sWithA [List.replicate 32 9] ↔
      ((∃ p ∈ sWithA.txs, p.2.pruned_at = none ∧ p.2.mined_at = none ∧
          p.2.tx_id = compute_txid txA) ∧
        compute_txid txA ∉ [List.replicate 32 9])) ∧
    txids_of_txs_not_in_list sWithA [] = [] :=
  ⟨(c8_not_in_list sWithA [List.replicate 32 9]).1 (by simp) (compute_txid txA),
   (c8_not_in_list sWithA []).2⟩

/-- C6 (counterexample): for a large enough fee the claimed floor quotient
exists but compute_fee_rate returns an error instead, because the FeeRate
constructor overflows multiplying the quotient by 250. -/
theorem c6_counterexample :
    t0.is_coinbase = false ∧
    U64MAX / toVbytesCeil t0.weight = 1844674407370955161 ∧
    compute_fee_rate t0 U64MAX = .error "Fee rate is 0" := by
  refine ⟨rfl, by decide, rfl⟩

/-- C6 (amended): for a non-coinbase transaction the computed fee rate is the
floor of fee over ceiling-vbytes whenever lifting that quotient into a
FeeRate does not overflow u64 (quotient times 250 at most u64::MAX); reading
the FeeRate back as sat/vB gives exactly the quotient; a zero fee always
succeeds with a zero fee rate; and a coinbase transaction always has fee rate
zero. -/
theorem c6_amended (tx : Transaction) (f : Nat) :
    (tx.is_coinbase = false → f / toVbytesCeil tx.weight * 250 ≤ U64MAX →
      compute_fee_rate tx f = .ok ⟨f / toVbytesCeil tx.weight * 250⟩ ∧
      FeeRate.to_sat_per_vb_ceil ⟨f / toVbytesCeil tx.weight * 250⟩ =
        f / toVbytesCeil tx.weight) ∧
    compute_fee_rate tx 0 = .ok FeeRate.zero ∧
    (tx.is_coinbase = true → compute_fee_rate tx f = .ok FeeRate.zero) := by
  refine ⟨?_, ?_, ?_⟩
  · intro hcb hle
    constructor
    · simp [compute_fee_rate, hcb, FeeRate.from_sat_per_vb, hle]
    · show (f / toVbytesCeil tx.weight * 250 + 249) / 250 = f / toVbytesCeil tx.weight
      rw [mul_comm, Nat.mul_add_div (by norm_num)]
      norm_num
  · by_cases hcb : tx.is_coinbase = true
    · simp [compute_fee_rate, hcb, FeeRate.zero]
    · simp [compute_fee_rate, hcb, FeeRate.from_sat_per_vb, FeeRate.zero, Nat.zero_div]
  · intro hcb
    simp [compute_fee_rate, hcb]

/-- C6 (witness for the amended theorem). -/
theorem c6_witness :
    compute_fee_rate txA 1000 = .ok ⟨1000 / toVbytesCeil txA.weight * 250⟩ ∧
    FeeRate.to_sat_per_vb_ceil ⟨1000 / toVbytesCeil txA.weight * 250⟩ =
      1000 / toVbytesCeil txA.weight ∧
    compute_fee_rate txA 0 = .ok FeeRate.zero ∧
    compute_fee_rate cbTx 777 = .ok FeeRate.zero :=
  ⟨((c6_amended txA 1000).1 (by decide) (by decide)).1,
   ((c6_amended txA 1000).1 (by decide) (by decide)).2,
   (c6_amended txA 0).2.1,
   (c6_amended cbTx 777).2.2 (by decide)⟩

theorem sumInputValuesAux_ok (rpc : RpcEnv) (l : List TxIn) (acc n : Nat)
    (h : sumInputValuesAux rpc acc l = .ok n) :
    n = acc + (l.map (resolved_prev_value rpc)).sum := by
  induction l generalizing acc with
  | nil =>
    simp only [sumInputValuesAux, Outcome.ok.injEq] at h
    simp [h.symm]
  | cons vin rest ih =>
    simp only [sumInputValuesAux] at h
    split at h
    · rename_i hnull
      have hrec := ih acc h
      rw [List.map_cons, List.sum_cons,
        show resolved_prev_value rpc vin = 0 from by simp [resolved_prev_value, hnull]]
      omega
    · rename_i hnull
      split at h
      · exact Outcome.noConfusion h
      · rename_i prev hrpc
        split at h
        · exact Outcome.noConfusion h
        · rename_i o hout
          split at h
          · exact Outcome.noConfusion h
          · rename_i hov
            have hrec := ih (acc + o.value) h
            rw [List.map_cons, List.sum_cons,
              show resolved_prev_value rpc vin = o.value from by
                simp [resolved_prev_value, hnull, hrpc, ← List.get?_eq_getElem?, hout]]
            omega

theorem sumOutputValuesAux_ok (l : List TxOut) (acc n : Nat)
    (h : sumOutputValuesAux acc l = some n) :
    n = acc + (l.map TxOut.value).sum := by
  induction l generalizing acc with
  | nil =>
    simp only [sumOutputValuesAux, Option.some.injEq] at h
    simp [h.symm]
  | cons o rest ih =>
    simp only [sumOutputValuesAux] at h
    split at h
    · exact Option.noConfusion h
    · have hrec := ih (acc + o.value) h
      rw [List.map_cons, List.sum_cons]
      omega

/-- C7 (counterexample): when the resolved input total (5) is below the
output total (50000), get_absolute_fee panics — the Amount subtraction aborts
the task — instead of returning an error value as the claim states. -/
theorem c7_counterexample :
    get_absolute_fee txA rpc1 = .panic ∧
    sumInputValuesAux rpc1 0 txA.input = .ok 5 ∧
    sumOutputValuesAux 0 txA.output = some 50000 := by
  refine ⟨rfl, by decide, by decide⟩

/-- C7 (amended): for a non-coinbase transaction whose inputs all resolve,
the fee is the sum of the resolved previous-output values minus the sum of
the output values when that difference is non-negative; when the difference
would be negative the function panics (no fee and no error value is
returned). -/
theorem c7_amended (tx : Transaction) (rpc : RpcEnv) (input_value output_value : Nat)
    (hcb : tx.is_coinbase = false)
    (hin : sumInputValuesAux rpc 0 tx.input = .ok input_value)
    (hout : sumOutputValuesAux 0 tx.output = some output_value) :
    input_value = (tx.input.map (resolved_prev_value rpc)).sum ∧
    output_value = (tx.output.map TxOut.value).sum ∧
    (output_value ≤ input_value →
      get_absolute_fee tx rpc = .ok (input_value - output_value)) ∧
    (input_value < output_value → get_absolute_fee tx rpc = .panic) := by
  refine ⟨?_, ?_, ?_, ?_⟩
  · simpa using sumInputValuesAux_ok rpc tx.input 0 input_value hin
  · simpa using sumOutputValuesAux_ok tx.output 0 output_value hout
  · intro hle
    simp [get_absolute_fee, hcb, hin, hout, Nat.not_lt.mpr hle]
  · intro hlt
    simp [get_absolute_fee, hcb, hin, hout, hlt]

/-- C7 (witness for the amended theorem): txC resolves 5 in and 3 out, fee 2;
txA resolves 5 in and 50000 out, panic. -/
theorem c7_witness :
    get_absolute_fee txC rpc1 = .ok 2 ∧ get_absolute_fee txA rpc1 = .panic :=
  ⟨by
    have h := (c7_amended txC rpc1 5 3 (by decide) (by decide) (by decide)).2.2.1
      (by norm_num)
    simpa using h,
   (c7_amended txA rpc1 5 50000 (by decide) (by decide) (by decide)).2.2.2
    (by norm_num)⟩

/-- C3 (code bug): a RawTx task whose payload fails consensus decoding makes
the worker loop return an error immediately — the question mark on
consensus_decode propagates — terminating the worker instead of logging and
continuing with the remaining tasks. -/
theorem c3_code_bug (rpc : RpcEnv) (s : Store) (now : Nat) (rest : List (Nat × Task))
    (payload : Bytes) (h : decodeTransaction payload = none) :
    runWorker rpc s ((now, Task.RawTx payload) :: rest) = .err := by
  simp [runWorker, processTask, h]

/-- C3 (witness): the empty payload fails decoding and kills the worker with
a queued task still pending. -/
theorem c3_witness :
    decodeTransaction ([] : Bytes) = none ∧
    runWorker rpc1 emptyStore [(1, Task.RawTx []), (2, Task.PruneCheck)] = .err :=
  ⟨rfl, c3_code_bug rpc1 emptyStore 1 [(2, Task.PruneCheck)] [] rfl⟩

/-- C4 (code bug): the schema produced by Database::new plus all migrations
has no is_cpfp_parent column (the migration named AddIsCpfpParent adds
parent_txid instead), so the UPDATE issued by insert_mempool_tx whenever a
live parent row exists is invalid and the whole insert fails with an SQL
error instead of recording the CPFP link and inserting the child. -/
theorem c4_code_bug :
    "is_cpfp_parent" ∉ migratedState.schema.transactions ∧
    cpfp_update_stmt_ok = false ∧
    sWithA.txs.any (fun p => p.2.tx_id == compute_txid txA &&
      p.2.mined_at.isNone && p.2.pruned_at.isNone) = true ∧
    insert_mempool_tx sWithA childOfA none 2 400 ⟨0⟩ = .error .noSuchColumn :=
  ⟨by decide, by decide, by decide, rfl⟩

theorem storeOk_iff (s : Store) :
    storeOk s = true ↔ ∀ p ∈ s.txs, rowConsistent p.2 = true := by
  simp [storeOk, List.all_eq_true]

theorem all_removeKey {α : Type} (l : List (Bytes × α)) (k : Bytes)
    (p : Bytes × α → Bool) (h : l.all p = true) : (removeKey l k).all p = true := by
  induction l with
  | nil => rfl
  | cons q t ih =>
    obtain ⟨k2, r⟩ := q
    rw [List.all_cons, Bool.and_eq_true] at h
    by_cases hk : k2 = k
    · rw [removeKey, if_pos hk]
      exact ih h.2
    · rw [removeKey, if_neg hk, List.all_cons, Bool.and_eq_true]
      exact ⟨h.1, ih h.2⟩

theorem storeOk_insertOrReplace (txs : List (Bytes × TxRow)) (k : Bytes) (row : TxRow)
    (hOk : txs.all (fun p => rowConsistent p.2) = true)
    (hrow : rowConsistent row = true) :
    (insertOrReplace txs k row).all (fun p => rowConsistent p.2) = true := by
  rw [insertOrReplace, List.all_append]
  simp [all_removeKey txs k _ hOk, hrow]

theorem cpfpLoop_ok (inputs : List TxIn) (txs txs2 : List (Bytes × TxRow)) (tid : Bytes)
    (h : cpfpLoop inputs txs tid = .ok txs2) : txs2 = txs := by
  induction inputs with
  | nil =>
    simp only [cpfpLoop, Except.ok.injEq] at h
    exact h.symm
  | cons i rest ih =>
    simp only [cpfpLoop] at h
    split at h
    · rw [show cpfp_update_stmt_ok = false from by decide] at h
      simp at h
    · exact ih h

/-- One-step preservation: every guarded operation keeps the invariant. -/
theorem storeOk_applyOp (s : Store) (op : Op) (hOk : storeOk s = true)
    (hG : opGuard s op = true) : storeOk (applyOp s op) = true := by
  cases op with
  | insert tx f now fee fr =>
    simp only [applyOp]
    cases hins : insert_mempool_tx s tx f now fee fr with
    | error e => exact hOk
    | ok s2 =>
      simp only [insert_mempool_tx] at hins
      cases hloop : cpfpLoop tx.input s.txs (compute_txid tx) with
      | error e => rw [hloop] at hins; exact Except.noConfusion hins
      | ok txs1 =>
        rw [hloop] at hins
        simp only [Except.ok.injEq] at hins
        have htxs : txs1 = s.txs := cpfpLoop_ok _ _ _ _ hloop
        subst htxs
        rw [← hins, storeOk]
        exact storeOk_insertOrReplace s.txs _ _ hOk rfl
  | mined tx now =>
    simp only [applyOp, record_mined_tx, storeOk]
    rw [storeOk] at hOk
    rw [List.all_eq_true] at hOk ⊢
    intro p hp
    rw [updateRowsWhere] at hp
    rw [List.mem_map] at hp
    obtain ⟨q, hq, rfl⟩ := hp
    simp only [opGuard, List.all_eq_true] at hG
    have hGq := hG q hq
    by_cases hk : (q.1 == get_inputs_hash (prune_large_witnesses tx).input) = true
    · rw [if_pos hk]
      rw [hk, Bool.not_true, Bool.false_or] at hGq
      rw [Option.isNone_iff_eq_none] at hGq
      simp [rowConsistent, hGq]
    · rw [if_neg hk]
      exact hOk q hq
  | coinbase tx fn mn =>
    simp only [applyOp, record_coinbase_tx]
    cases hcb : tx.is_coinbase with
    | false => rw [if_pos (show (!false) = true from rfl)]; exact hOk
    | true =>
      rw [if_neg (show ¬ (!true) = true from by simp)]
      rw [storeOk]
      exact storeOk_insertOrReplace s.txs _ _ hOk rfl
  | rbf tx ft fr now =>
    simp only [applyOp, record_rbf]
    split
    · exact hOk
    · rw [storeOk]
      exact hOk
  | updateTxid tx =>
    simp only [applyOp, update_txid_by_inputs_hash, storeOk]
    rw [storeOk] at hOk
    rw [List.all_eq_true] at hOk ⊢
    intro p hp
    rw [updateRowsWhere, List.mem_map] at hp
    obtain ⟨q, hq, rfl⟩ := hp
    have hOkq := hOk q hq
    split
    · simpa [rowConsistent] using hOkq
    · exact hOkq
  | pruned txids now =>
    simp only [applyOp, record_pruned_txs]
    split
    · exact hOk
    · rw [storeOk] at hOk ⊢
      rw [List.all_eq_true] at hOk ⊢
      intro p hp
      rw [updateRowsWhere, List.mem_map] at hp
      obtain ⟨q, hq, rfl⟩ := hp
      simp only [opGuard, List.all_eq_true] at hG
      have hGq := hG q hq
      by_cases hc : txids.contains q.2.tx_id = true
      · rw [if_pos hc]
        rw [hc, Bool.not_true, Bool.false_or, Option.isNone_iff_eq_none] at hGq
        simp [rowConsistent, hGq]
      · rw [if_neg hc]
        exact hOk q hq
  | removeStale =>
    simp only [applyOp, remove_stale_txs, storeOk]
    rw [storeOk] at hOk
    rw [List.all_eq_true] at hOk ⊢
    intro p hp
    exact hOk p (List.mem_of_mem_filter hp)

/-- C1 (counterexample): insert a transaction, prune it by txid, then record
it mined — the resulting row has both mined_at and pruned_at set, so the
claimed invariant fails under the store operations as implemented. -/
theorem c1_counterexample :
    storeOk (applySeq emptyStore
      [Op.insert txA none 1 100 ⟨0⟩, Op.pruned [compute_txid txA] 2,
       Op.mined txA 3]) = false := by decide

/-- C1 (amended): the invariant holds for every operation sequence in which
record_mined_tx is never applied to an already-pruned row and
record_pruned_txs never names the txid of an already-mined row; all other
operations need no side condition.  record_mined_tx sets mined_at without
checking pruned_at and record_pruned_txs sets pruned_at without checking
mined_at, so the unguarded claim is false. -/
theorem c1_amended (s : Store) (ops : List Op) (hOk : storeOk s = true)
    (hSafe : safeTrace s ops = true) : storeOk (applySeq s ops) = true := by
  induction ops generalizing s with
  | nil => simpa [applySeq] using hOk
  | cons op rest ih =>
    rw [safeTrace, Bool.and_eq_true] at hSafe
    show storeOk (List.foldl applyOp (applyOp s op) rest) = true
    exact ih (applyOp s op) (storeOk_applyOp s op hOk hSafe.1) hSafe.2

/-- C1 (witness for the amended theorem): a guarded trace through insert,
mined and the startup cleanup keeps the invariant. -/
theorem c1_witness :
    storeOk emptyStore = true ∧
    safeTrace emptyStore
      [Op.insert txA none 1 100 ⟨0⟩, Op.mined txA 3, Op.removeStale] = true ∧
    storeOk (applySeq emptyStore
      [Op.insert txA none 1 100 ⟨0⟩, Op.mined txA 3, Op.removeStale]) = true :=
  ⟨by decide, by decide, c1_amended emptyStore _ (by decide) (by decide)⟩

theorem applied_iff (st : MigState) (id : String) :
    already_applied st id = true ↔ id ∈ st.ledger.map Prod.fst :=
  List.elem_iff

theorem migrationList_appends : ∀ m ∈ migrationList, MigrationAppends m := by
  have h1 : MigrationAppends UpdateChildTxidColName := by
    intro now st st2 h
    simp only [UpdateChildTxidColName] at h
    split at h
    · exact Except.noConfusion h
    · simp only [ledgerInsert] at h
      split at h
      · exact Except.noConfusion h
      · simp only [Except.ok.injEq] at h
        rw [← h]
        rfl
  have h2 : MigrationAppends AddTxNotSeenInMempool := by
    intro now st st2 h
    simp only [AddTxNotSeenInMempool] at h
    split at h
    · exact Except.noConfusion h
    · simp only [ledgerInsert] at h
      split at h
      · exact Except.noConfusion h
      · simp only [Except.ok.injEq] at h
        rw [← h]
        rfl
  have h3 : MigrationAppends AddReplacementTxid := by
    intro now st st2 h
    simp only [AddReplacementTxid] at h
    split at h
    · exact Except.noConfusion h
    · simp only [ledgerInsert] at h
      split at h
      · exact Except.noConfusion h
      · simp only [Except.ok.injEq] at h
        rw [← h]
        rfl
  have h4 : MigrationAppends AddIsCpfpParent := by
    intro now st st2 h
    simp only [AddIsCpfpParent] at h
    split at h
    · exact Except.noConfusion h
    · simp only [ledgerInsert] at h
      split at h
      · exact Except.noConfusion h
      · simp only [Except.ok.injEq] at h
        rw [← h]
        rfl
  intro m hm
  simp only [migrationList, List.mem_cons, List.not_mem_nil, or_false] at hm
  rcases hm with rfl | rfl | rfl | rfl
  · exact h1
  · exact h2
  · exact h3
  · exact h4

theorem runMigList_props (now : Nat) (ms : List Migration)
    (hWf : ∀ m ∈ ms, MigrationAppends m) (st st2 : MigState)
    (h : runMigList now ms st = .ok st2) :
    (∃ extra, st2.ledger = st.ledger ++ extra ∧ ∀ e ∈ extra, e.2 = now) ∧
    (∀ m ∈ ms, m.id ∈ st2.ledger.map Prod.fst) := by
  induction ms generalizing st with
  | nil =>
    simp only [runMigList, Except.ok.injEq] at h
    subst h
    exact ⟨⟨[], by simp, by simp⟩, by simp⟩
  | cons m rest ih =>
    simp only [runMigList] at h
    split at h
    · exact Except.noConfusion h
    · rename_i st1 hstep
      obtain ⟨⟨extra, hex, hts⟩, happ⟩ :=
        ih (fun m2 hm2 => hWf m2 (List.mem_cons_of_mem _ hm2)) st1 h
      rw [applyMigration] at hstep
      by_cases hap : already_applied st m.id = true
      · rw [if_pos hap] at hstep
        simp only [Except.ok.injEq] at hstep
        subst hstep
        refine ⟨⟨extra, hex, hts⟩, ?_⟩
        intro m2 hm2
        rcases List.mem_cons.mp hm2 with rfl | hm3
        · have hmem := (applied_iff st m2.id).mp hap
          rw [hex, List.map_append]
          exact List.mem_append_left _ hmem
        · exact happ m2 hm3
      · rw [if_neg hap] at hstep
        have hledger := hWf m (List.mem_cons_self m rest) now st st1 hstep
        refine ⟨⟨[(m.id, now)] ++ extra, ?_, ?_⟩, ?_⟩
        · rw [hex, hledger, List.append_assoc]
        · intro e he
          rcases List.mem_append.mp he with he1 | he2
          · rw [List.mem_singleton] at he1
            rw [he1]
          · exact hts e he2
        · intro m2 hm2
          rcases List.mem_cons.mp hm2 with rfl | hm3
          · rw [hex, hledger, List.map_append, List.map_append]
            refine List.mem_append_left _ (List.mem_append_right _ ?_)
            simp
          · exact happ m2 hm3

theorem runMigList_skip (now : Nat) (ms : List Migration) (st : MigState)
    (h : ∀ m ∈ ms, already_applied st m.id = true) :
    runMigList now ms st = .ok st := by
  induction ms with
  | nil => rfl
  | cons m rest ih =>
    rw [runMigList, applyMigration, if_pos (h m (List.mem_cons_self m rest))]
    exact ih (fun m2 hm2 => h m2 (List.mem_cons_of_mem _ hm2))

/-- C9: a successful run_migrations leaves every migration of the fixed list
recorded in the ledger; a migration whose id was absent beforehand is
executed and recorded with the run's clock value; the ledger only grows by
appending; and running run_migrations again on the resulting state is a
no-op succeeding with the same state (idempotence). -/
theorem c9_migrations (now now2 : Nat) (st st2 : MigState)
    (h : run_migrations now st = .ok st2) :
    run_migrations now2 st2 = .ok st2 ∧
    (∀ m ∈ migrationList, already_applied st2 m.id = true) ∧
    (∀ m ∈ migrationList, already_applied st m.id = false → (m.id, now) ∈ st2.ledger) ∧
    (∃ extra, st2.ledger = st.ledger ++ extra) := by
  rw [run_migrations] at h
  obtain ⟨⟨extra, hex, hts⟩, happ⟩ :=
    runMigList_props now migrationList migrationList_appends st st2 h
  have happ2 : ∀ m ∈ migrationList, already_applied st2 m.id = true :=
    fun m hm => (applied_iff st2 m.id).mpr (happ m hm)
  refine ⟨?_, happ2, ?_, ⟨extra, hex⟩⟩
  · rw [run_migrations]
    exact runMigList_skip now2 migrationList st2 happ2
  · intro m hm hfresh
    obtain ⟨e, he, heid⟩ := List.mem_map.mp (happ m hm)
    rw [hex] at he
    rcases List.mem_append.mp he with he1 | he2
    · exfalso
      have hap : already_applied st m.id = true :=
        (applied_iff st m.id).mpr (List.mem_map.mpr ⟨e, he1, heid⟩)
      rw [hfresh] at hap
      exact Bool.noConfusion hap
    · have ht := hts e he2
      have heq : e = (m.id, now) := by
        obtain ⟨e1, e2⟩ := e
        simp only at heid ht
        rw [heid, ht]
      rw [← heq, hex]
      exact List.mem_append_right _ he2

/-- C9 (witness): the migrations run at clock 5 on the fresh schema, a second
run at clock 9 is a no-op with the same state, the "parent_txid" migration is
recorded, and the first migration's ledger row carries the clock value 5. -/
theorem c9_witness :
    run_migrations 5 freshMigState = .ok migratedState5 ∧
    run_migrations 9 migratedState5 = .ok migratedState5 ∧
    already_applied migratedState5 "parent_txid" = true ∧
    ("update_child_txid_col_name", 5) ∈ migratedState5.ledger := by
  have h : run_migrations 5 freshMigState = .ok migratedState5 := rfl
  refine ⟨h, (c9_migrations 5 9 freshMigState migratedState5 h).1,
    (c9_migrations 5 9 freshMigState migratedState5 h).2.1 AddIsCpfpParent
      (by simp [migrationList]),
    (c9_migrations 5 9 freshMigState migratedState5 h).2.2.1 UpdateChildTxidColName
      (by simp [migrationList]) rfl⟩

end MempoolTracker
